import Mathlib

/-!
Verification of the ModSynth modular-synthesizer core (modsynth.cpp / midi.cpp)
against its natural-language specification.

The C++ code is shallowly embedded: each module's per-tick `update()` becomes a
Lean function on an explicit state structure; `float` samples are modelled as
real numbers; the process-wide registry is a list of module handles; the audio
callback's per-sample loop is a fold over that list.
-/

namespace ModSynth

/-- The time step: `Module::dt = 1.0f / 48000.0f`. -/
noncomputable def dt : ℝ := 1 / 48000

/-- Helper: `std::exp2` on reals, `exp2 x = 2 ^ x` (real power). -/
noncomputable def exp2 (x : ℝ) : ℝ := (2 : ℝ) ^ x

/-! ### Registry (modsynth.cpp lines 148-158)

The registry is `std::vector<Module *> modules`; we model it as a list of
module handles (naturals).  `Module::Module` does `modules.push_back(this)`.
`Module::~Module` — as written in the source — ALSO does
`modules.push_back(this)` (it appends again instead of erasing). -/

/-- Constructor `Module::Module()`: `registry.modules.push_back(this)`. -/
def registerModule (regs : List ℕ) (m : ℕ) : List ℕ := regs ++ [m]

/-- Destructor `Module::~Module()` as the source writes it: it executes
`registry.modules.push_back(this)` again — it does not erase the entry. -/
def destroyModule (regs : List ℕ) (m : ℕ) : List ℕ := regs ++ [m]

/-! ### Scheduler and Wire (modsynth.cpp lines 88-105, 310-313)

`Audio::callback` runs, once per sample, `for (auto mod : registry->modules)
mod->update();` — a left fold of the module updates over the registration
order.  `Wire::update` is `to = from`.

For the registration-order claim we build the three-module world from the
spec: a producer A whose update publishes a fresh value each tick (its output
after tick t holds the value t), a consumer B whose update reads its input
port, and a Wire copying A's output port into B's input port. -/

/-- One scheduler tick: call `update()` on every registered module in
registration order (the loop body of `Audio::callback`). -/
def tickAll {σ : Type} (mods : List (σ → σ)) (s : σ) : σ :=
  mods.foldl (fun t f => f t) s

/-- Iterate the scheduler for `n` ticks. -/
def runTicks {σ : Type} (mods : List (σ → σ)) : ℕ → σ → σ
  | 0, s => s
  | n + 1, s => runTicks mods n (tickAll mods s)

/-- The port state of the A/B/Wire world: A's tick counter and output port,
B's input port, and the value B's update read. -/
structure WireWorld where
  aCount : ℕ
  aOut : ℕ
  bIn : ℕ
  bObs : ℕ
  deriving DecidableEq, Repr

/-- The three modules of the registration-order scenario. -/
inductive WireMod
  | A
  | B
  | W
  deriving DecidableEq, Repr

/-- The update functions: A publishes the current tick number on its output
port; B's update reads its input port; the Wire's update is `to = from`
(modsynth.cpp line 312) from A's output to B's input. -/
def wireModUpdate : WireMod → WireWorld → WireWorld
  | .A, s => { s with aCount := s.aCount + 1, aOut := s.aCount + 1 }
  | .B, s => { s with bObs := s.bIn }
  | .W, s => { s with bIn := s.aOut }

/-- Run the A/B/Wire world for `n` ticks under a given registration order. -/
def runWires (order : List WireMod) (n : ℕ) : WireWorld :=
  runTicks (order.map wireModUpdate) n ⟨0, 0, 0, 0⟩

/-! ### VCO (modsynth.cpp lines 160-170, header lines 458-482)

`VCO::update` recovers a phase from the sawtooth output
(`phase = sawtooth_out * 0.5f - 0.5f`), advances it by `frequency * dt`,
wraps it with `phase -= std::floor(phase)` (that is, takes `Int.fract`),
and derives the four waveform outputs from the wrapped phase.
`std::rint` under the default rounding mode rounds half to even. -/

/-- Model of `std::rint` (round to nearest, ties to even). -/
noncomputable def rint (x : ℝ) : ℝ :=
  if Int.fract x < 1 / 2 then (⌊x⌋ : ℝ)
  else if 1 / 2 < Int.fract x then ((⌊x⌋ + 1 : ℤ) : ℝ)
  else if Even ⌊x⌋ then (⌊x⌋ : ℝ) else ((⌊x⌋ + 1 : ℤ) : ℝ)

/-- The VCO port state (struct VCO).  `0.5f` literals are written `1 / 2`. -/
structure VCO where
  frequency : ℝ
  sawtooth_out : ℝ
  sine_out : ℝ
  square_out : ℝ
  triangle_out : ℝ

/-- The wrapped phase a `VCO::update` call computes:
`phase = sawtooth_out * 0.5f - 0.5f; phase += frequency * dt;
phase -= std::floor(phase);`. -/
noncomputable def wrappedPhase (v : VCO) : ℝ :=
  Int.fract (v.sawtooth_out * (1 / 2) - 1 / 2 + v.frequency * dt)

/-- Update function `VCO::update` (modsynth.cpp lines 160-170). -/
noncomputable def VCO.update (v : VCO) : VCO :=
  { v with
      sawtooth_out := wrappedPhase v * 2 - 1
      sine_out := Real.sin (wrappedPhase v * 2 * Real.pi)
      square_out := rint (wrappedPhase v) * (-2) + 1
      triangle_out := |wrappedPhase v - 1 / 2| * 4 - 1 }

/-- The `VCO(float frequency)` constructor with the header's member
initializers: `sawtooth_out{-1}`, `sine_out{}`, `square_out{1}`,
`triangle_out{}`. -/
noncomputable def vcoInit (f : ℝ) : VCO :=
  { frequency := f, sawtooth_out := -1, sine_out := 0, square_out := 1, triangle_out := 0 }

/-! ### Envelope (modsynth.cpp lines 172-199, header lines 497-531)

`Envelope::update` first runs the transition rule (`gate_in <= 0` forces
RELEASE; otherwise a RELEASE state becomes ATTACK), then performs the chosen
state's action.  The ATTACK action adds `dt / attack` and clamps at 1,
moving to DECAY; DECAY and RELEASE multiply by `exp2(-dt / decay)` and
`exp2(-dt / release)` respectively. -/

/-- The envelope state machine phases (the private enum in struct Envelope). -/
inductive EnvPhase
  | ATTACK
  | DECAY
  | RELEASE
  deriving DecidableEq, Repr

/-- The Envelope port and internal state. -/
structure Envelope where
  gate_in : ℝ
  attack : ℝ
  decay : ℝ
  release : ℝ
  amplitude_out : ℝ
  state : EnvPhase

/-- The transition rule at the top of `Envelope::update`. -/
noncomputable def Envelope.nextPhase (e : Envelope) : EnvPhase :=
  if e.gate_in ≤ 0 then EnvPhase.RELEASE
  else if e.state = EnvPhase.RELEASE then EnvPhase.ATTACK
  else e.state

/-- The switch statement of `Envelope::update`, acting for a given phase. -/
noncomputable def Envelope.applyPhase (e : Envelope) : EnvPhase → Envelope
  | EnvPhase.ATTACK =>
      if e.amplitude_out + dt / e.attack ≥ 1 then
        { e with amplitude_out := 1, state := EnvPhase.DECAY }
      else
        { e with amplitude_out := e.amplitude_out + dt / e.attack, state := EnvPhase.ATTACK }
  | EnvPhase.DECAY =>
      { e with amplitude_out := e.amplitude_out * exp2 (-dt / e.decay), state := EnvPhase.DECAY }
  | EnvPhase.RELEASE =>
      { e with amplitude_out := e.amplitude_out * exp2 (-dt / e.release), state := EnvPhase.RELEASE }

/-- Update function `Envelope::update` (modsynth.cpp lines 172-199): run the
transition rule,
then the chosen state's action. -/
noncomputable def Envelope.update (e : Envelope) : Envelope :=
  e.applyPhase e.nextPhase

/-! ### Delay (modsynth.cpp lines 242-269, header lines 669-691)

`Delay::Delay(max_delay)` sets the public `delay` field to `max_delay` and
allocates `size_t(ceil(max_delay / dt)) + 1` zeroed history samples.
`Delay::update` pops the oldest sample and pushes the input at the front,
clamps `delay` (overwriting the field), computes `pos = delay / dt`
(truncated) and `fraction`, and linearly interpolates `buffer[pos]` and
`buffer[pos + 1]`.  The C++ `in` field is spelled `in_` (Lean keyword). -/

/-- The Delay port state plus its history deque. -/
structure Delay where
  in_ : ℝ
  delay : ℝ
  out : ℝ
  buffer : List ℝ

/-- Constructor `Delay::Delay(float max_delay)` (modsynth.cpp lines 242-246). -/
noncomputable def mkDelay (max_delay : ℝ) : Delay :=
  { in_ := 0, delay := max_delay, out := 0,
    buffer := List.replicate (⌈max_delay / dt⌉₊ + 1) 0 }

/-- The history after `buffer.pop_back(); buffer.push_front(in);`. -/
noncomputable def Delay.shifted (d : Delay) : List ℝ :=
  d.in_ :: d.buffer.dropLast

/-- Sample count `auto nsamples = buffer.size() - 1;` (after the shift). -/
noncomputable def Delay.nsamples (d : Delay) : ℕ :=
  d.shifted.length - 1

/-- The two clamping `if`s of `Delay::update`, producing the new `delay`. -/
noncomputable def Delay.clamped (d : Delay) : ℝ :=
  if (if d.delay < 0 then 0 else d.delay) > (d.nsamples : ℝ) * dt
  then (d.nsamples : ℝ) * dt
  else (if d.delay < 0 then 0 else d.delay)

/-- Read position `size_t pos = delay / dt;` — truncation of a nonnegative
value. -/
noncomputable def Delay.readPos (d : Delay) : ℕ :=
  ⌊d.clamped / dt⌋₊

/-- Update function `Delay::update` (modsynth.cpp lines 248-269).  The
interpolation reads
`buffer[pos]` and `buffer[pos + 1]`; list access is modelled with `getD`
(C++ `operator[]` performs no bounds check — an index at or past the size is
an out-of-bounds access). -/
noncomputable def Delay.update (d : Delay) : Delay :=
  { d with
      buffer := d.shifted
      delay := d.clamped
      out := d.shifted.getD d.readPos 0 * (1 - (d.clamped / dt - (d.readPos : ℝ))) +
        d.shifted.getD (d.readPos + 1) 0 * (d.clamped / dt - (d.readPos : ℝ)) }

/-! ### Sequencer (modsynth.cpp lines 271-302, header lines 712-737)

The constructor parses each note token: `find_first_of("0123456789")` locates
the octave digits, the prefix is looked up in the `base_notes` table (`at`
throws on an unknown spelling, a fatal construction error, modelled as
`none`), `stoi` parses the digits, and the frequency is
`440 * exp2((base_note - 9) / 12.0 + octave - 4)`.  The internal index
starts at `frequencies.size() - 1`.  `gate_out` and `frequency_out` carry no
initializer in the header (indeterminate), so the constructor model takes
them as parameters. -/

/-- The `base_notes` semitone table (modsynth.cpp lines 273-281). -/
def base_notes : List (String × Int) :=
  [("Cb", -1), ("C", 0), ("C#", 1),
   ("Db", 1), ("D", 2), ("D#", 3),
   ("Eb", 3), ("E", 4), ("E#", 5),
   ("Fb", 4), ("F", 5), ("F#", 6),
   ("Gb", 6), ("G", 7), ("G#", 8),
   ("Ab", 8), ("A", 9), ("A#", 10),
   ("Bb", 10), ("B", 11), ("B#", 12)]

/-- Parse one note token into (base_note, octave), as the constructor loop
does; `none` models the fatal `at`/`substr` exceptions. -/
def parseNote (s : String) : Option (Int × ℕ) :=
  match s.toList.findIdx? (fun c => c.isDigit) with
  | none => none
  | some octave_pos =>
      match base_notes.find? (fun p => p.1 == String.mk (s.toList.take octave_pos)) with
      | none => none
      | some p =>
          some (p.2, ((s.toList.drop octave_pos).takeWhile (fun c => c.isDigit)).foldl
            (fun acc c => acc * 10 + (c.toNat - '0'.toNat)) 0)

/-- The frequency formula of the constructor:
`440.0f * std::exp2((base_note - 9) / 12.0f + octave - 4)`. -/
noncomputable def noteFrequency (b : Int) (oct : ℕ) : ℝ :=
  440 * exp2 (((b : ℝ) - 9) / 12 + (oct : ℝ) - 4)

/-- The Sequencer port and internal state. -/
structure Sequencer where
  clock_in : ℝ
  frequencies : List ℝ
  frequency_out : ℝ
  gate_out : ℝ
  index : ℕ

/-- The Sequencer constructor; `f0`, `g0` stand for the indeterminate
initial values of the uninitialized `frequency_out` and `gate_out` members. -/
noncomputable def mkSequencer (notes : List String) (f0 g0 : ℝ) : Option Sequencer :=
  match notes.mapM parseNote with
  | none => none
  | some ps =>
      some { clock_in := 0
             frequencies := ps.map (fun p => noteFrequency p.1 p.2)
             frequency_out := f0
             gate_out := g0
             index := ps.length - 1 }

/-- The index after the rising-edge test of `Sequencer::update`
(`clock_in > 0 && !gate_out` advances the index modulo the list length). -/
noncomputable def Sequencer.nextIndex (s : Sequencer) : ℕ :=
  if s.clock_in > 0 ∧ s.gate_out = 0 then (s.index + 1) % s.frequencies.length
  else s.index

/-- Update function `Sequencer::update` (modsynth.cpp lines 293-302): advance
on a rising
edge, output `frequencies[index]`, and recompute `gate_out = clock_in > 0`
every tick. -/
noncomputable def Sequencer.update (s : Sequencer) : Sequencer :=
  { s with
      index := s.nextIndex
      frequency_out := s.frequencies.getD s.nextIndex 0
      gate_out := if s.clock_in > 0 then 1 else 0 }

/-- Set the clock input (as the composing code or a Wire does before the
sequencer's update runs) and update. -/
noncomputable def Sequencer.step (s : Sequencer) (c : ℝ) : Sequencer :=
  Sequencer.update { s with clock_in := c }

/-- Feed a list of clock samples, one scheduler tick each. -/
noncomputable def runClocks (s : Sequencer) (cs : List ℝ) : Sequencer :=
  cs.foldl Sequencer.step s

/-- The sequencer the constructor builds from {"C4","E4","G4","C5"} when the
indeterminate `frequency_out` and `gate_out` members start at 0. -/
noncomputable def seqC4 : Sequencer :=
  { clock_in := 0
    frequencies := [noteFrequency 0 4, noteFrequency 4 4,
      noteFrequency 7 4, noteFrequency 0 5]
    frequency_out := 0
    gate_out := 0
    index := 3 }

/-! ### MIDI adapter (midi.cpp lines 951-1044, midi.hpp)

`MIDI::process_event` folds ALSA sequencer events into per-channel state.
The held notes are a `std::bitset<128>` (modelled as a `Finset ℕ`); the
float channel fields carry no initializer in the header, so scenario
theorems quantify over (or pick) their initial values.  `channels[...]` is
indexed by the event's channel byte; we model the channel array as a total
map. -/

/-- Frequency map `note_to_frequency` (midi.cpp lines 951-954):
`440.0f * std::exp2((note - 69.0f) / 12.0f)`. -/
noncomputable def note_to_frequency (note : ℕ) : ℝ :=
  440 * exp2 (((note : ℝ) - 69) / 12)

/-- The scanning loop of `highest_note_frequency`: test notes 127 down to 0,
return the first held one. -/
def highestNote (notes : Finset ℕ) : Option ℕ :=
  (List.range 128).reverse.find? (fun n => decide (n ∈ notes))

/-- Monophonic selection `highest_note_frequency` (midi.cpp lines 956-965):
the frequency of the
highest held note, or the value-initialized 0 when no note is held. -/
noncomputable def highest_note_frequency (notes : Finset ℕ) : ℝ :=
  (highestNote notes).elim 0 note_to_frequency

/-- Per-channel MIDI state (`struct MIDI::Channel`, midi.hpp lines 27-38). -/
structure Channel where
  frequency : ℝ
  velocity : ℝ
  release_velocity : ℝ
  gate : ℝ
  aftertouch : ℝ
  pitch_bend : ℝ
  parameter : ℕ → ℝ
  notes : Finset ℕ

/-- The ALSA events `process_event` consumes (type, channel and data
fields). -/
inductive MidiEvent
  | noteOn (channel note velocity : ℕ)
  | noteOff (channel note velocity : ℕ)
  | keyPress (channel note velocity : ℕ)
  | chanPress (channel value : ℕ)
  | pitchBend (channel : ℕ) (value : ℤ)
  | controllerChange (channel param value : ℕ)
  | other

/-- Clearing a note (the zero-velocity NOTEON branch and the NOTEOFF case):
reset the note; if none remain, capture the release velocity from the stored
velocity and drop the gate, else recompute the frequency from the new
highest held note. -/
noncomputable def noteClear (ch : Channel) (note : ℕ) : Channel :=
  if ch.notes.erase note = ∅ then
    { ch with notes := ch.notes.erase note, release_velocity := ch.velocity, gate := 0 }
  else
    { ch with notes := ch.notes.erase note,
              frequency := highest_note_frequency (ch.notes.erase note) }

/-- The NOTEON case: with nonzero velocity, capture the normalized velocity
if no notes were held, mark the note held, recompute the frequency as the
highest held note's, and raise the gate; with zero velocity, clear the
note. -/
noncomputable def noteOnChannel (ch : Channel) (note velocity : ℕ) : Channel :=
  if velocity ≠ 0 then
    { ch with
        velocity := if ch.notes = ∅ then (velocity : ℝ) / 127 else ch.velocity
        notes := insert note ch.notes
        frequency := highest_note_frequency (insert note ch.notes)
        gate := 1 }
  else
    noteClear ch note

/-- The whole adapter state: the 16-entry channel array as a total map. -/
structure MidiState where
  channels : ℕ → Channel

/-- Event handler `MIDI::process_event` (midi.cpp lines 967-1044). The
KEYPRESS case is
exactly the source's comparison: the local `frequency` variable holds the
event's raw note number and is compared against the stored `ch.frequency`
in Hz. -/
noncomputable def process_event (s : MidiState) : MidiEvent → MidiState
  | .noteOn c note vel =>
      ⟨Function.update s.channels c (noteOnChannel (s.channels c) note vel)⟩
  | .noteOff c note _vel =>
      ⟨Function.update s.channels c (noteClear (s.channels c) note)⟩
  | .keyPress c note vel =>
      ⟨Function.update s.channels c
        (if (s.channels c).frequency = (note : ℝ)
         then { s.channels c with aftertouch := (vel : ℝ) / 127 }
         else s.channels c)⟩
  | .chanPress c value =>
      ⟨Function.update s.channels c
        { s.channels c with aftertouch := (value : ℝ) / 127 }⟩
  | .pitchBend c value =>
      ⟨Function.update s.channels c
        { s.channels c with pitch_bend := (value : ℝ) / 4096 }⟩
  | .controllerChange c param value =>
      ⟨Function.update s.channels c
        { s.channels c with
            parameter := Function.update (s.channels c).parameter param ((value : ℝ) / 127) }⟩
  | .other => s

/-- Processing a queue of events in order (the drain loop of
`MIDI::update`). -/
noncomputable def processEvents (s : MidiState) (es : List MidiEvent) : MidiState :=
  es.foldl process_event s

/-- A channel with every float field at zero and no held notes. -/
noncomputable def chanZero : Channel :=
  { frequency := 0, velocity := 0, release_velocity := 0, gate := 0,
    aftertouch := 0, pitch_bend := 0, parameter := fun _ => 0, notes := ∅ }

/-- An adapter state with all channels zeroed. -/
noncomputable def midiZero : MidiState :=
  ⟨fun _ => chanZero⟩

/-- The time step is positive. -/
theorem dt_pos : 0 < dt := by
  unfold dt; norm_num

/-- Peeling a tick off the back of a run. -/
theorem runTicks_succ {σ : Type} (mods : List (σ → σ)) (n : ℕ) (s : σ) :
    runTicks mods (n + 1) s = tickAll mods (runTicks mods n s) := by
  induction n generalizing s with
  | zero => rfl
  | succ n ih =>
      show runTicks mods (n + 1) (tickAll mods s) = _
      rw [ih]
      rfl

/-- Peeling a tick off the back of a wire-world run. -/
theorem runWires_succ (order : List WireMod) (n : ℕ) :
    runWires order (n + 1) = tickAll (order.map wireModUpdate) (runWires order n) := by
  unfold runWires
  rw [runTicks_succ]

/-- State after n+1 ticks with order A, Wire, B. -/
theorem runWires_AWB (n : ℕ) :
    runWires [.A, .W, .B] (n + 1) = ⟨n + 1, n + 1, n + 1, n + 1⟩ := by
  induction n with
  | zero => rfl
  | succ n ih => rw [runWires_succ, ih]; rfl

/-- State after n+1 ticks with order Wire, A, B. -/
theorem runWires_WAB (n : ℕ) :
    runWires [.W, .A, .B] (n + 1) = ⟨n + 1, n + 1, n, n⟩ := by
  induction n with
  | zero => rfl
  | succ n ih => rw [runWires_succ, ih]; rfl

/-- State after n+1 ticks with order Wire, B, A. -/
theorem runWires_WBA (n : ℕ) :
    runWires [.W, .B, .A] (n + 1) = ⟨n + 1, n + 1, n, n⟩ := by
  induction n with
  | zero => rfl
  | succ n ih => rw [runWires_succ, ih]; rfl

/-- State after n+1 ticks with order A, B, Wire. -/
theorem runWires_ABW (n : ℕ) :
    runWires [.A, .B, .W] (n + 1) = ⟨n + 1, n + 1, n + 1, n⟩ := by
  induction n with
  | zero => rfl
  | succ n ih => rw [runWires_succ, ih]; rfl

/-- State after n+1 ticks with order B, A, Wire. -/
theorem runWires_BAW (n : ℕ) :
    runWires [.B, .A, .W] (n + 1) = ⟨n + 1, n + 1, n + 1, n⟩ := by
  induction n with
  | zero => rfl
  | succ n ih => rw [runWires_succ, ih]; rfl

/-- State after n+2 ticks with order B, Wire, A. -/
theorem runWires_BWA (n : ℕ) :
    runWires [.B, .W, .A] (n + 2) = ⟨n + 2, n + 2, n + 1, n⟩ := by
  induction n with
  | zero => rfl
  | succ n ih => rw [runWires_succ, ih]; rfl

/-- Adding a number to a fractional part does not change the fractional part
of the sum. -/
theorem fract_fract_add (a b : ℝ) :
    Int.fract (Int.fract a + b) = Int.fract (a + b) := by
  have h : Int.fract a + b = a + b - (⌊a⌋ : ℤ) := by
    rw [Int.fract]; ring
  rw [h, Int.fract_sub_int]

/-- Subtracting one does not change the fractional part. -/
theorem fract_sub_one (a : ℝ) : Int.fract (a - 1) = Int.fract a := by
  have h := Int.fract_sub_int a 1
  push_cast at h
  exact h

/-- A `VCO::update` call never modifies the frequency input. -/
theorem VCO.update_frequency (v : VCO) : (VCO.update v).frequency = v.frequency := rfl

/-- Frequency is preserved across any number of updates. -/
theorem vco_iterate_frequency (f : ℝ) (N : ℕ) :
    (VCO.update^[N] (vcoInit f)).frequency = f := by
  induction N with
  | zero => rfl
  | succ N ih => rw [Function.iterate_succ_apply', VCO.update_frequency, ih]

/-- Sawtooth output after N updates from the initial state. -/
theorem vco_iterate_sawtooth (f : ℝ) (N : ℕ) :
    (VCO.update^[N] (vcoInit f)).sawtooth_out = 2 * Int.fract (N * (f * dt)) - 1 := by
  induction N with
  | zero => simp [vcoInit]
  | succ N ih =>
      rw [Function.iterate_succ_apply']
      have hupd : (VCO.update (VCO.update^[N] (vcoInit f))).sawtooth_out =
          wrappedPhase (VCO.update^[N] (vcoInit f)) * 2 - 1 := rfl
      rw [hupd, wrappedPhase, ih, vco_iterate_frequency]
      have h1 : (2 * Int.fract (↑N * (f * dt)) - 1) * (1 / 2) - 1 / 2 + f * dt =
          Int.fract (↑N * (f * dt)) + (f * dt - 1) := by ring
      rw [h1, fract_fract_add]
      have h2 : (N : ℝ) * (f * dt) + (f * dt - 1) = ((N : ℝ) + 1) * (f * dt) - 1 := by ring
      rw [h2, fract_sub_one]
      have h3 : ((N + 1 : ℕ) : ℝ) = (N : ℝ) + 1 := by push_cast; ring
      rw [h3]
      ring

/-- Value of the modelled `std::rint` on the wrapped-phase interval `[0, 1)`:
it returns 0 up to and including the tie at one half (0 is even), and 1
strictly above it. -/
theorem rint_of_unit (p : ℝ) (h0 : 0 ≤ p) (h1 : p < 1) :
    rint p = if p ≤ 1 / 2 then 0 else 1 := by
  have hfl : ⌊p⌋ = 0 := Int.floor_eq_zero_iff.mpr ⟨h0, h1⟩
  have hfr : Int.fract p = p := Int.fract_eq_self.mpr ⟨h0, h1⟩
  unfold rint
  rw [hfl, hfr]
  rcases lt_trichotomy p (1 / 2) with h | h | h
  · rw [if_pos h, if_pos h.le]
    norm_num
  · rw [if_neg (by rw [h]; exact lt_irrefl _), if_neg (by rw [h]; exact lt_irrefl _),
      if_pos (by decide), if_pos h.le]
    norm_num
  · rw [if_neg (not_lt.mpr h.le), if_pos h, if_neg (not_le.mpr h)]
    norm_num

/-- The shift keeps the history size unchanged (for a nonempty history). -/
theorem Delay.shifted_length (d : Delay) (h : d.buffer ≠ []) :
    d.shifted.length = d.buffer.length := by
  simp only [Delay.shifted, List.length_cons, List.length_dropLast]
  exact Nat.succ_pred_eq_of_pos (List.length_pos.mpr h)

/-- The two clamping ifs amount to clamping into `[0, nsamples * dt]`. -/
theorem Delay.clamped_eq (d : Delay) :
    d.clamped = min (max d.delay 0) ((d.nsamples : ℝ) * dt) := by
  have hM : 0 ≤ (d.nsamples : ℝ) * dt := mul_nonneg (Nat.cast_nonneg _) dt_pos.le
  unfold Delay.clamped
  rcases lt_or_le d.delay 0 with h0 | h0
  · rw [if_pos h0, if_neg (not_lt.mpr hM), max_eq_right h0.le, min_eq_left hM]
  · rw [if_neg (not_lt.mpr h0), max_eq_left h0]
    rcases le_or_lt d.delay ((d.nsamples : ℝ) * dt) with h1 | h1
    · rw [if_neg (not_lt.mpr h1), min_eq_left h1]
    · rw [if_pos h1, min_eq_right h1.le]

/-- exp2 is positive. -/
theorem exp2_pos (x : ℝ) : 0 < exp2 x := Real.rpow_pos_of_pos (by norm_num) x

/-- exp2 of a nonpositive exponent is at most one. -/
theorem exp2_le_one_of_nonpos {x : ℝ} (hx : x ≤ 0) : exp2 x ≤ 1 :=
  Real.rpow_le_one_of_one_le_of_nonpos (by norm_num) hx

/-- Multiplying a value at most one by a decay factor in (0, 1] keeps it at
most one. -/
theorem amp_decay_le_one {a c : ℝ} (ha : a ≤ 1) (hc0 : 0 < c) (hc1 : c ≤ 1) :
    a * c ≤ 1 :=
  mul_le_one₀ ha hc0.le hc1

end ModSynth

namespace ModSynth

/-- C7: starting from the VCO's initial output state (`sawtooth_out = -1`,
phase 0), after N update() calls the phase recovered from the sawtooth output
equals `(N * f * dt) mod 1` — for every frequency, including zero and
negative ones — and each single update sets `sawtooth_out = 2p - 1` for the
wrapped phase `p`, which lies in `[0, 1)`. -/
theorem C7_phase_after_N_updates (f : ℝ) (N : ℕ) :
    ((VCO.update^[N] (vcoInit f)).sawtooth_out + 1) / 2 = Int.fract ((N : ℝ) * f * dt) ∧
    (VCO.update^[N] (vcoInit f)).sawtooth_out = 2 * Int.fract ((N : ℝ) * f * dt) - 1 ∧
    (∀ v : VCO, (VCO.update v).sawtooth_out = 2 * wrappedPhase v - 1 ∧
      0 ≤ wrappedPhase v ∧ wrappedPhase v < 1) := by
  have h := vco_iterate_sawtooth f N
  have hassoc : (N : ℝ) * (f * dt) = (N : ℝ) * f * dt := by ring
  rw [hassoc] at h
  refine ⟨by rw [h]; ring, h, fun v => ⟨by show wrappedPhase v * 2 - 1 = _; ring,
    Int.fract_nonneg _, Int.fract_lt_one _⟩⟩

/-- C8 (counterexample): with frequency 24000 the first update from the
initial state lands on wrapped phase exactly one half, and the square output
is +1, not the -1 the claim requires for `p ≥ 0.5` (round-half-to-even sends
0.5 to the even integer 0, so `square = 0 * -2 + 1 = +1`). -/
theorem C8_square_at_exact_half :
    wrappedPhase (vcoInit 24000) = 1 / 2 ∧
    (VCO.update (vcoInit 24000)).square_out = 1 ∧
    (VCO.update (vcoInit 24000)).square_out ≠ -1 := by
  have harg : (vcoInit 24000).sawtooth_out * (1 / 2) - 1 / 2 +
      (vcoInit 24000).frequency * dt = -(1 / 2) := by
    show (-1 : ℝ) * (1 / 2) - 1 / 2 + 24000 * dt = -(1 / 2)
    unfold dt
    norm_num
  have hfl : ⌊(-(1 / 2) : ℝ)⌋ = -1 := by
    rw [Int.floor_eq_iff]
    push_cast
    norm_num
  have hp : wrappedPhase (vcoInit 24000) = 1 / 2 := by
    unfold wrappedPhase
    rw [harg, Int.fract, hfl]
    push_cast
    norm_num
  have hsq : (VCO.update (vcoInit 24000)).square_out = 1 := by
    show rint (wrappedPhase (vcoInit 24000)) * (-2) + 1 = 1
    rw [hp, rint_of_unit (1 / 2) (by norm_num) (by norm_num)]
    norm_num
  exact ⟨hp, hsq, by rw [hsq]; norm_num⟩

/-- C8 (amended): for every wrapped phase p produced by a VCO update, the
square output equals +1 when p ≤ 0.5 and -1 when p > 0.5; the tie at exactly
p = 0.5 is resolved by round-half-to-even, which rounds to the even integer 0
and therefore yields +1, not -1. -/
theorem C8_square_wave_threshold (v : VCO) :
    (VCO.update v).square_out = if wrappedPhase v ≤ 1 / 2 then 1 else -1 := by
  have h0 : 0 ≤ wrappedPhase v := Int.fract_nonneg _
  have h1 : wrappedPhase v < 1 := Int.fract_lt_one _
  have hr := rint_of_unit (wrappedPhase v) h0 h1
  show rint (wrappedPhase v) * (-2) + 1 = _
  rw [hr]
  split_ifs <;> norm_num

/-- C9: for every Envelope with positive attack, decay and release times, a
single update() preserves the bound `amplitude_out ≤ 1` for every gate value
and every state; moreover, whenever the update executes in the ATTACK state
(the transition rule selects ATTACK), `amplitude_out ≤ 1` afterwards holds
unconditionally, because the attack branch clamps to 1. -/
theorem C9_envelope_amplitude_le_one (e : Envelope)
    (ha : 0 < e.attack) (hd : 0 < e.decay) (hr : 0 < e.release) :
    (e.amplitude_out ≤ 1 → (Envelope.update e).amplitude_out ≤ 1) ∧
    (e.nextPhase = EnvPhase.ATTACK → (Envelope.update e).amplitude_out ≤ 1) := by
  have hdec : exp2 (-dt / e.decay) ≤ 1 := by
    apply exp2_le_one_of_nonpos
    have h := div_nonneg dt_pos.le hd.le
    linarith [neg_div e.decay dt]
  have hrel : exp2 (-dt / e.release) ≤ 1 := by
    apply exp2_le_one_of_nonpos
    have h := div_nonneg dt_pos.le hr.le
    linarith [neg_div e.release dt]
  have hattack : e.nextPhase = EnvPhase.ATTACK → (Envelope.update e).amplitude_out ≤ 1 := by
    intro hnp
    rw [Envelope.update, hnp, Envelope.applyPhase]
    split_ifs with hcl
    · simp
    · simp
      linarith [not_le.mp (by exact fun h => hcl h)]
  refine ⟨?_, hattack⟩
  intro hamp
  cases hnp : e.nextPhase with
  | ATTACK => exact hattack hnp
  | DECAY =>
      rw [Envelope.update, hnp, Envelope.applyPhase]
      simp
      exact amp_decay_le_one hamp (exp2_pos _) hdec
  | RELEASE =>
      rw [Envelope.update, hnp, Envelope.applyPhase]
      simp
      exact amp_decay_le_one hamp (exp2_pos _) hrel

/-- C10: `Delay::update` overwrites the public `delay` input field with the
clamped value: after the call the stored delay lies in
`[0, (buffer.size() - 1) * dt]` and equals the clamp of the requested delay,
while the `in` field and the buffer's size are unchanged. -/
theorem C10_delay_clamp_frame (d : Delay) (h : d.buffer ≠ []) :
    0 ≤ (Delay.update d).delay ∧
    (Delay.update d).delay ≤ (((Delay.update d).buffer.length - 1 : ℕ) : ℝ) * dt ∧
    (Delay.update d).delay = min (max d.delay 0) (((d.buffer.length - 1 : ℕ) : ℝ) * dt) ∧
    (Delay.update d).in_ = d.in_ ∧
    (Delay.update d).buffer.length = d.buffer.length := by
  have hlen : d.shifted.length = d.buffer.length := Delay.shifted_length d h
  have hdel : (Delay.update d).delay = d.clamped := rfl
  have hbuf : (Delay.update d).buffer = d.shifted := rfl
  have hM : 0 ≤ (d.nsamples : ℝ) * dt := mul_nonneg (Nat.cast_nonneg _) dt_pos.le
  have hns : d.nsamples = d.buffer.length - 1 := by
    rw [Delay.nsamples, hlen]
  refine ⟨?_, ?_, ?_, rfl, ?_⟩
  · rw [hdel, Delay.clamped_eq]
    exact le_min (le_max_right _ _) hM
  · rw [hdel, Delay.clamped_eq, hbuf, hlen, ← hns]
    exact min_le_right _ _
  · rw [hdel, Delay.clamped_eq, hns]
  · rw [hbuf, hlen]

/-- C10 witness: the frame theorem applied to a concrete two-sample delay
with requested delay 1. -/
theorem C10_delay_clamp_frame_witness :
    0 ≤ (Delay.update ⟨0, 1, 0, [0, 0]⟩).delay ∧
    (Delay.update ⟨0, 1, 0, [0, 0]⟩).delay ≤
      (((Delay.update (⟨0, 1, 0, [0, 0]⟩ : Delay)).buffer.length - 1 : ℕ) : ℝ) * dt ∧
    (Delay.update ⟨0, 1, 0, [0, 0]⟩).delay =
      min (max (⟨0, 1, 0, [0, 0]⟩ : Delay).delay 0)
        ((((⟨0, 1, 0, [0, 0]⟩ : Delay).buffer.length - 1 : ℕ) : ℝ) * dt) ∧
    (Delay.update ⟨0, 1, 0, [0, 0]⟩).in_ = (⟨0, 1, 0, [0, 0]⟩ : Delay).in_ ∧
    (Delay.update ⟨0, 1, 0, [0, 0]⟩).buffer.length =
      (⟨0, 1, 0, [0, 0]⟩ : Delay).buffer.length :=
  C10_delay_clamp_frame ⟨0, 1, 0, [0, 0]⟩ (by simp)

/-- C4: at the maximum clamped delay the interpolation index pair escapes the
buffer.  The failing input is `Delay(dt)` (capacity `ceil(dt/dt)+1 = 2`,
requested delay = the constructor default `max_delay = dt`): the clamp keeps
`delay = nsamples * dt = dt`, so `pos = 1` and the interpolation reads
`buffer[2]` — index two in a two-element buffer, one past the end — refuting
the claim that both indices stay within bounds for every clamped delay. -/
theorem C4_max_delay_reads_one_past_end :
    (mkDelay dt).buffer.length = 2 ∧
    Delay.nsamples (mkDelay dt) = 1 ∧
    Delay.clamped (mkDelay dt) = (Delay.nsamples (mkDelay dt) : ℝ) * dt ∧
    Delay.readPos (mkDelay dt) = 1 ∧
    (Delay.update (mkDelay dt)).buffer.length = 2 ∧
    ¬(Delay.readPos (mkDelay dt) + 1 < (Delay.update (mkDelay dt)).buffer.length) := by
  have hdd : dt / dt = 1 := div_self dt_pos.ne'
  have hceil : ⌈dt / dt⌉₊ = 1 := by rw [hdd]; exact Nat.ceil_one
  have hbuf : (mkDelay dt).buffer = [0, 0] := by
    show List.replicate (⌈dt / dt⌉₊ + 1) (0 : ℝ) = [0, 0]
    rw [hceil]
    rfl
  have hin : (mkDelay dt).in_ = 0 := rfl
  have hshift : (mkDelay dt).shifted = [0, 0] := by
    rw [Delay.shifted, hbuf, hin]
    rfl
  have hns : Delay.nsamples (mkDelay dt) = 1 := by
    rw [Delay.nsamples, hshift]
    rfl
  have hlen2 : (mkDelay dt).buffer.length = 2 := by rw [hbuf]; rfl
  have hdelay : (mkDelay dt).delay = dt := rfl
  have hclamped : Delay.clamped (mkDelay dt) = dt := by
    rw [Delay.clamped_eq, hns, hdelay, max_eq_left dt_pos.le]
    push_cast
    rw [one_mul, min_self]
  have hpos : Delay.readPos (mkDelay dt) = 1 := by
    rw [Delay.readPos, hclamped, hdd]
    exact Nat.floor_one
  have hulen : (Delay.update (mkDelay dt)).buffer.length = 2 := by
    show (mkDelay dt).shifted.length = 2
    rw [hshift]
    rfl
  refine ⟨hlen2, hns, ?_, hpos, hulen, ?_⟩
  · rw [hclamped, hns]
    push_cast
    rw [one_mul]
  · rw [hpos, hulen]
    decide

/-- Scanning from 127 finds 64 as the highest of {60, 64}. -/
theorem highestNote_60_64 : highestNote ({64, 60} : Finset ℕ) = some 64 := by decide

/-- Scanning finds 60 as the highest of {60}. -/
theorem highestNote_60 : highestNote ({60} : Finset ℕ) = some 60 := by decide

/-- Scanning finds 69 as the highest of {69}. -/
theorem highestNote_69 : highestNote ({69} : Finset ℕ) = some 69 := by decide

/-- Releasing 64 from {60, 64} leaves {60}. -/
theorem erase_64_of_60_64 : ({64, 60} : Finset ℕ).erase 64 = {60} := by decide

/-- Releasing 60 from {60} leaves the empty set. -/
theorem erase_60_of_60 : ({60} : Finset ℕ).erase 60 = ∅ := by decide

/-- Reading back the channel a NOTEON event updated. -/
theorem channels_noteOn (s : MidiState) (c note vel : ℕ) :
    (process_event s (.noteOn c note vel)).channels c =
      noteOnChannel (s.channels c) note vel := by
  simp [process_event]

/-- Reading back the channel a NOTEOFF event updated. -/
theorem channels_noteOff (s : MidiState) (c note vel : ℕ) :
    (process_event s (.noteOff c note vel)).channels c =
      noteClear (s.channels c) note := by
  simp [process_event]

/-- Reading back the channel a KEYPRESS event touched. -/
theorem channels_keyPress (s : MidiState) (c note vel : ℕ) :
    (process_event s (.keyPress c note vel)).channels c =
      (if (s.channels c).frequency = (note : ℝ)
       then { s.channels c with aftertouch := (vel : ℝ) / 127 }
       else s.channels c) := by
  simp [process_event]

/-- The MIDI note 69 (A4) frequency is exactly 440 Hz. -/
theorem note_to_frequency_69 : note_to_frequency 69 = 440 := by
  rw [note_to_frequency, exp2]
  rw [show ((((69 : ℕ) : ℝ)) - 69) / 12 = (0 : ℝ) by norm_num, Real.rpow_zero]
  norm_num

/-- The constructor result for the spec's four-note list. -/
theorem mkSequencer_C4 (f0 g0 : ℝ) :
    mkSequencer ["C4", "E4", "G4", "C5"] f0 g0 =
      some { clock_in := 0
             frequencies := [noteFrequency 0 4, noteFrequency 4 4,
               noteFrequency 7 4, noteFrequency 0 5]
             frequency_out := f0
             gate_out := g0
             index := 3 } := by
  rfl

/-- A clock sample of 1 while the cleaned gate is 0 is a rising edge: the
index advances modulo the list length and the gate goes high. -/
theorem step_one (fr : List ℝ) (f0 : ℝ) (i : ℕ) :
    Sequencer.step ⟨0, fr, f0, 0, i⟩ 1 =
      ⟨1, fr, fr.getD ((i + 1) % fr.length) 0, 1, (i + 1) % fr.length⟩ := by
  norm_num [Sequencer.step, Sequencer.update, Sequencer.nextIndex]

/-- Feeding clock samples 0 then 1 produces exactly one rising edge from any
sequencer state. -/
theorem pulse_pair (t : Sequencer) :
    runClocks t [0, 1] =
      ⟨1, t.frequencies, t.frequencies.getD ((t.index + 1) % t.frequencies.length) 0, 1,
        (t.index + 1) % t.frequencies.length⟩ := by
  show Sequencer.step (Sequencer.step t 0) 1 = _
  norm_num [Sequencer.step, Sequencer.update, Sequencer.nextIndex]

/-- Splitting a clock-sample feed. -/
theorem runClocks_append (t : Sequencer) (cs ds : List ℝ) :
    runClocks t (cs ++ ds) = runClocks (runClocks t cs) ds := by
  rw [runClocks, runClocks, runClocks, List.foldl_append]

/-- The "C4" frequency 440 * 2^(-3/4) is about 261.63 Hz. -/
theorem noteFrequency_C4_bounds :
    261.62 < noteFrequency 0 4 ∧ noteFrequency 0 4 < 261.63 := by
  have hexp : (((0 : Int) : ℝ) - 9) / 12 + ((4 : ℕ) : ℝ) - 4 = -(3 / 4) := by
    push_cast
    norm_num
  have hval : noteFrequency 0 4 = 440 * (2 : ℝ) ^ (-(3 / 4) : ℝ) := by
    rw [noteFrequency, exp2, hexp]
  have hpow : ((2 : ℝ) ^ (-(3 / 4) : ℝ)) ^ (4 : ℕ) = 1 / 8 := by
    rw [← Real.rpow_natCast ((2 : ℝ) ^ (-(3 / 4) : ℝ)) 4,
      ← Real.rpow_mul (by norm_num : (0 : ℝ) ≤ 2)]
    have h1 : (-(3 / 4) * ((4 : ℕ) : ℝ)) = -((3 : ℕ) : ℝ) := by push_cast; ring
    rw [h1, Real.rpow_neg (by norm_num : (0 : ℝ) ≤ 2), Real.rpow_natCast]
    norm_num
  have hfpos : 0 < noteFrequency 0 4 := by
    rw [hval]
    positivity
  have hf4 : (noteFrequency 0 4) ^ (4 : ℕ) = 4685120000 := by
    rw [hval, mul_pow, hpow]
    norm_num
  constructor
  · by_contra hle
    push_neg at hle
    have h2 := pow_le_pow_left₀ hfpos.le hle 4
    rw [hf4] at h2
    norm_num at h2
  · by_contra hle
    push_neg at hle
    have h2 := pow_le_pow_left₀ (by norm_num : (0 : ℝ) ≤ 261.63) hle 4
    rw [hf4] at h2
    norm_num at h2

/-- C6: a Sequencer built from the four-note list "C4","E4","G4","C5" (with
the indeterminate initial cleaned gate at 0) starts with its index at the
last element 3; the first clock pulse arriving while the cleaned gate is 0
advances the index modulo 4 to element 0, outputs frequencies[0] — the "C4"
frequency, between 261.62 and 261.63 Hz — and raises the gate; four further
rising edges wrap the index back to element 0; on every tick
`gate_out = (clock_in > 0)` with no edge filtering; and for every note list
the constructor starts the index at length - 1. -/
theorem C6_sequencer (f0 : ℝ) (s : Sequencer)
    (h : mkSequencer ["C4", "E4", "G4", "C5"] f0 0 = some s) :
    s.index = 3 ∧ s.frequencies.length = 4 ∧
    ((s.step 1).index = 0 ∧ (s.step 1).frequency_out = noteFrequency 0 4 ∧
      (s.step 1).gate_out = 1) ∧
    (261.62 < noteFrequency 0 4 ∧ noteFrequency 0 4 < 261.63) ∧
    ((runClocks (s.step 1) [0, 1, 0, 1, 0, 1, 0, 1]).index = 0 ∧
      (runClocks (s.step 1) [0, 1, 0, 1, 0, 1, 0, 1]).frequency_out = noteFrequency 0 4) ∧
    (∀ (t : Sequencer) (c : ℝ), (t.step c).gate_out = if c > 0 then 1 else 0) ∧
    (∀ (notes : List String) (f g : ℝ) (t : Sequencer),
      mkSequencer notes f g = some t → t.index = t.frequencies.length - 1) := by
  rw [mkSequencer_C4] at h
  obtain rfl := Option.some.inj h
  have hstep : Sequencer.step ⟨0, [noteFrequency 0 4, noteFrequency 4 4,
      noteFrequency 7 4, noteFrequency 0 5], f0, 0, 3⟩ 1 =
      ⟨1, [noteFrequency 0 4, noteFrequency 4 4, noteFrequency 7 4, noteFrequency 0 5],
        noteFrequency 0 4, 1, 0⟩ := by
    rw [step_one]
    norm_num [List.getD]
  refine ⟨rfl, rfl, ?_, noteFrequency_C4_bounds, ?_, ?_, ?_⟩
  · rw [hstep]
    exact ⟨rfl, rfl, rfl⟩
  · rw [hstep]
    have hsplit : ([0, 1, 0, 1, 0, 1, 0, 1] : List ℝ) =
        [0, 1] ++ ([0, 1] ++ ([0, 1] ++ [0, 1])) := rfl
    rw [hsplit, runClocks_append, runClocks_append, runClocks_append]
    simp only [pulse_pair]
    norm_num [List.getD]
  · intro t c
    rfl
  · intro notes f g t hmk
    cases hm : notes.mapM parseNote with
    | none =>
        rw [mkSequencer, hm] at hmk
        exact absurd hmk (by simp)
    | some ps =>
        rw [mkSequencer, hm] at hmk
        obtain rfl := Option.some.inj hmk
        simp [List.length_map]

/-- C6 witness: the sequencer theorem applied to the concrete constructor
result with both indeterminate members started at 0. -/
theorem C6_sequencer_witness :
    mkSequencer ["C4", "E4", "G4", "C5"] 0 0 = some seqC4 ∧
    (seqC4.index = 3 ∧ seqC4.frequencies.length = 4 ∧
      ((seqC4.step 1).index = 0 ∧ (seqC4.step 1).frequency_out = noteFrequency 0 4 ∧
        (seqC4.step 1).gate_out = 1) ∧
      (261.62 < noteFrequency 0 4 ∧ noteFrequency 0 4 < 261.63) ∧
      ((runClocks (seqC4.step 1) [0, 1, 0, 1, 0, 1, 0, 1]).index = 0 ∧
        (runClocks (seqC4.step 1) [0, 1, 0, 1, 0, 1, 0, 1]).frequency_out =
          noteFrequency 0 4) ∧
      (∀ (t : Sequencer) (c : ℝ), (t.step c).gate_out = if c > 0 then 1 else 0) ∧
      (∀ (notes : List String) (f g : ℝ) (t : Sequencer),
        mkSequencer notes f g = some t → t.index = t.frequencies.length - 1)) :=
  ⟨by rfl, C6_sequencer 0 seqC4 (by rfl)⟩

/-- C2: on any channel whose note set starts empty, note-on 60 then note-on
64 (both nonzero velocity) selects the frequency of note 64 — the highest
held note — with gate 1, and the stored velocity is the first note-on's
(captured only when no notes were held); releasing 64 reverts the frequency
to note 60's; releasing 60 as well drops the gate to 0 and sets
release_velocity to the captured velocity of the note-on that began the
held group (note 60, the note whose release emptied the channel). -/
theorem C2_midi_note_stacking (s : MidiState) (c v1 v2 rv1 rv2 : ℕ)
    (hempty : (s.channels c).notes = ∅) (hv1 : v1 ≠ 0) (hv2 : v2 ≠ 0) :
    ((processEvents s [.noteOn c 60 v1, .noteOn c 64 v2]).channels c).frequency =
      note_to_frequency 64 ∧
    ((processEvents s [.noteOn c 60 v1, .noteOn c 64 v2]).channels c).gate = 1 ∧
    ((processEvents s [.noteOn c 60 v1, .noteOn c 64 v2]).channels c).velocity =
      (v1 : ℝ) / 127 ∧
    ((processEvents s [.noteOn c 60 v1, .noteOn c 64 v2,
        .noteOff c 64 rv1]).channels c).frequency = note_to_frequency 60 ∧
    ((processEvents s [.noteOn c 60 v1, .noteOn c 64 v2, .noteOff c 64 rv1,
        .noteOff c 60 rv2]).channels c).gate = 0 ∧
    ((processEvents s [.noteOn c 60 v1, .noteOn c 64 v2, .noteOff c 64 rv1,
        .noteOff c 60 rv2]).channels c).release_velocity = (v1 : ℝ) / 127 := by
  have e1 : (process_event s (.noteOn c 60 v1)).channels c =
      ⟨highest_note_frequency {60}, (v1 : ℝ) / 127, (s.channels c).release_velocity, 1,
        (s.channels c).aftertouch, (s.channels c).pitch_bend, (s.channels c).parameter,
        {60}⟩ := by
    rw [channels_noteOn]
    simp [noteOnChannel, hv1, hempty]
  have e2 : (processEvents s [.noteOn c 60 v1, .noteOn c 64 v2]).channels c =
      ⟨note_to_frequency 64, (v1 : ℝ) / 127, (s.channels c).release_velocity, 1,
        (s.channels c).aftertouch, (s.channels c).pitch_bend, (s.channels c).parameter,
        {64, 60}⟩ := by
    show (process_event (process_event s (.noteOn c 60 v1)) (.noteOn c 64 v2)).channels c = _
    rw [channels_noteOn, e1]
    simp [noteOnChannel, hv2, highest_note_frequency, highestNote_60_64]
  have e3 : (processEvents s [.noteOn c 60 v1, .noteOn c 64 v2,
      .noteOff c 64 rv1]).channels c =
      ⟨note_to_frequency 60, (v1 : ℝ) / 127, (s.channels c).release_velocity, 1,
        (s.channels c).aftertouch, (s.channels c).pitch_bend, (s.channels c).parameter,
        {60}⟩ := by
    show (process_event (processEvents s [.noteOn c 60 v1, .noteOn c 64 v2])
      (.noteOff c 64 rv1)).channels c = _
    rw [channels_noteOff, e2]
    simp [noteClear, erase_64_of_60_64, highest_note_frequency, highestNote_60]
  have e4 : (processEvents s [.noteOn c 60 v1, .noteOn c 64 v2, .noteOff c 64 rv1,
      .noteOff c 60 rv2]).channels c =
      ⟨note_to_frequency 60, (v1 : ℝ) / 127, (v1 : ℝ) / 127, 0,
        (s.channels c).aftertouch, (s.channels c).pitch_bend, (s.channels c).parameter,
        ∅⟩ := by
    show (process_event (processEvents s [.noteOn c 60 v1, .noteOn c 64 v2,
      .noteOff c 64 rv1]) (.noteOff c 60 rv2)).channels c = _
    rw [channels_noteOff, e3]
    simp [noteClear, erase_60_of_60]
  rw [e2, e3, e4]
  exact ⟨rfl, rfl, rfl, rfl, rfl, rfl⟩

/-- C2 witness: the note-stacking theorem at channel 0, velocities 100 and
80, release velocities 5 and 6, from the all-zero adapter state. -/
theorem C2_midi_note_stacking_witness :
    ((processEvents midiZero [.noteOn 0 60 100, .noteOn 0 64 80]).channels 0).frequency =
      note_to_frequency 64 ∧
    ((processEvents midiZero [.noteOn 0 60 100, .noteOn 0 64 80]).channels 0).gate = 1 ∧
    ((processEvents midiZero [.noteOn 0 60 100, .noteOn 0 64 80]).channels 0).velocity =
      ((100 : ℕ) : ℝ) / 127 ∧
    ((processEvents midiZero [.noteOn 0 60 100, .noteOn 0 64 80,
        .noteOff 0 64 5]).channels 0).frequency = note_to_frequency 60 ∧
    ((processEvents midiZero [.noteOn 0 60 100, .noteOn 0 64 80, .noteOff 0 64 5,
        .noteOff 0 60 6]).channels 0).gate = 0 ∧
    ((processEvents midiZero [.noteOn 0 60 100, .noteOn 0 64 80, .noteOff 0 64 5,
        .noteOff 0 60 6]).channels 0).release_velocity = ((100 : ℕ) : ℝ) / 127 :=
  C2_midi_note_stacking midiZero 0 100 80 5 6 rfl (by decide) (by decide)

/-- C5: the KEYPRESS handler compares the stored frequency in Hz against the
event's raw note number, so a polyphonic key pressure for the very note that
is selected does not update aftertouch.  Failing input: channel 0 holds note
69 (A4, stored frequency 440), then KEYPRESS arrives for note 69 with
velocity 127.  The claim requires aftertouch = 127/127 = 1; the code leaves
it unchanged at 0 because 440 differs from the note number 69. -/
theorem C5_keypress_ignores_matching_note :
    highestNote ((process_event midiZero (.noteOn 0 69 100)).channels 0).notes =
      some 69 ∧
    ((process_event midiZero (.noteOn 0 69 100)).channels 0).frequency = 440 ∧
    ((process_event midiZero (.noteOn 0 69 100)).channels 0).frequency ≠ ((69 : ℕ) : ℝ) ∧
    ((processEvents midiZero [.noteOn 0 69 100,
        .keyPress 0 69 127]).channels 0).aftertouch = 0 ∧
    ((processEvents midiZero [.noteOn 0 69 100,
        .keyPress 0 69 127]).channels 0).aftertouch ≠ ((127 : ℕ) : ℝ) / 127 := by
  have e1 : (process_event midiZero (.noteOn 0 69 100)).channels 0 =
      ⟨440, ((100 : ℕ) : ℝ) / 127, 0, 1, 0, 0, fun _ => 0, {69}⟩ := by
    rw [channels_noteOn]
    show noteOnChannel chanZero 69 100 = _
    simp [noteOnChannel, chanZero, highest_note_frequency, highestNote_69,
      note_to_frequency_69]
  have e2 : (processEvents midiZero [.noteOn 0 69 100,
      .keyPress 0 69 127]).channels 0 =
      ⟨440, ((100 : ℕ) : ℝ) / 127, 0, 1, 0, 0, fun _ => 0, {69}⟩ := by
    show (process_event (process_event midiZero (.noteOn 0 69 100))
      (.keyPress 0 69 127)).channels 0 = _
    rw [channels_keyPress, e1]
    rw [if_neg (by norm_num)]
  refine ⟨?_, ?_, ?_, ?_, ?_⟩
  · rw [e1]
    exact highestNote_69
  · rw [e1]
  · rw [e1]
    show (440 : ℝ) ≠ ((69 : ℕ) : ℝ)
    norm_num
  · rw [e2]
  · rw [e2]
    show (0 : ℝ) ≠ ((127 : ℕ) : ℝ) / 127
    norm_num

/-- C9 witness: the bound-preservation theorem applied to a concrete
envelope (attack = decay = release = 1, amplitude 0, gate high, RELEASE
state, so the update runs its ATTACK branch). -/
theorem C9_envelope_amplitude_le_one_witness :
    ((⟨1, 1, 1, 1, 0, EnvPhase.RELEASE⟩ : Envelope).amplitude_out ≤ 1 →
      (Envelope.update ⟨1, 1, 1, 1, 0, EnvPhase.RELEASE⟩).amplitude_out ≤ 1) ∧
    ((⟨1, 1, 1, 1, 0, EnvPhase.RELEASE⟩ : Envelope).nextPhase = EnvPhase.ATTACK →
      (Envelope.update ⟨1, 1, 1, 1, 0, EnvPhase.RELEASE⟩).amplitude_out ≤ 1) :=
  C9_envelope_amplitude_le_one ⟨1, 1, 1, 1, 0, EnvPhase.RELEASE⟩
    (by norm_num) (by norm_num) (by norm_num)

end ModSynth

namespace ModSynth

/-- C1: Destroying a Module removes its entry from the Registry's ordered
sequence: after a module's destructor runs, the module occurs zero times in
the registry.  The source contradicts this (and its own destructor
documentation, "This will deregister the module"): `Module::~Module` executes
`registry.modules.push_back(this)`, so after constructing module 7 into an
empty registry and then destroying it, it occurs twice, not zero times, and
the scheduler would keep invoking it. -/
theorem C1_destructor_appends_instead_of_removing :
    (destroyModule (registerModule [] 7) 7).count 7 = 2 ∧
    (destroyModule (registerModule [] 7) 7).count 7 ≠ 0 := by
  constructor
  · rfl
  · decide

/-- C3 (counterexample): with the Wire registered after both A and B
(registration order A, B, Wire), at tick 2 A's same-tick value is 2 but B's
update observed 1 — the previous tick's value — so the claim's first clause
is false at this concrete input. -/
theorem C3_wire_after_both_is_previous_tick :
    (runWires [.A, .B, .W] 2).aOut = 2 ∧
    (runWires [.A, .B, .W] 2).bObs = 1 ∧
    (runWires [.A, .B, .W] 2).bObs ≠ (runWires [.A, .B, .W] 2).aOut := by
  decide

/-- C3 (amended): for two modules A and B and a Wire copying A's output port
into B's input port: if the Wire is registered after A and before B, then
within each tick B's update observes A's value from the same tick; if the
Wire is registered after both A and B, or before A with B after the Wire, or
B is registered before A with the Wire after A, B observes A's previous-tick
value; and if B is registered before the Wire and the Wire before A, B
observes the value from two ticks earlier.  (A's output after tick t holds
the value t; stated from tick 2 onward so every delay is well defined.) -/
theorem C3_registration_order_delays (n : ℕ) :
    ((runWires [.A, .W, .B] (n + 2)).aOut = n + 2 ∧
      (runWires [.A, .W, .B] (n + 2)).bObs = n + 2) ∧
    (runWires [.A, .B, .W] (n + 2)).bObs = n + 1 ∧
    (runWires [.W, .A, .B] (n + 2)).bObs = n + 1 ∧
    (runWires [.W, .B, .A] (n + 2)).bObs = n + 1 ∧
    (runWires [.B, .A, .W] (n + 2)).bObs = n + 1 ∧
    (runWires [.B, .W, .A] (n + 2)).bObs = n := by
  refine ⟨⟨?_, ?_⟩, ?_, ?_, ?_, ?_, ?_⟩
  · rw [runWires_AWB (n + 1)]
  · rw [runWires_AWB (n + 1)]
  · rw [runWires_ABW (n + 1)]
  · rw [runWires_WAB (n + 1)]
  · rw [runWires_WBA (n + 1)]
  · rw [runWires_BAW (n + 1)]
  · rw [runWires_BWA n]

end ModSynth
